import Mathlib

/-!
Verification of the RegionHop peer-registry, address-allocation, endpoint
reconciliation and fleet-status logic.

The embedding models:
* `server-scripts/add-client.sh` — key generation aside, the allocation loop
  `get_next_available_ip` and the appended `[Peer]` block;
* the `remove-client.sh` script shipped inside `server-scripts/vpn-status.sh`
  (line-number based block excision over `wg0.conf`);
* the `get_region_comprehensive_status` / `get_asg_desired_capacity` /
  `check_vpn_connectivity` helpers of the region-management shell library;
* the DNS updater lambda `lib/dns-updater-lambda.ts` (`handler`,
  `getInstanceAddresses`, `updateDnsRecords`).

The registry artifact `wg0.conf` is modelled as a `List String` of lines.
-/

namespace RegionHop

/-! ### Character and string helpers

The shell scripts operate on the artifact with `grep`/`sed`/`head`/`tail`.
We model the string operations they perform at the character-list level. -/

/-- Strip `p` from the front of `xs`; `none` if `p` is not a prefix of `xs`. -/
def listDropPre : List Char → List Char → Option (List Char)
  | [], ys => some ys
  | _ :: _, [] => none
  | x :: xs, y :: ys => if x = y then listDropPre xs ys else none

/-- Strip `suf` from the back of `xs`; `none` if `suf` is not a suffix. -/
def listDropSuf (suf xs : List Char) : Option (List Char) :=
  (listDropPre suf.reverse xs.reverse).map List.reverse

/-- Does `p` occur as a contiguous substring of the second argument?
Models `grep` fixed-string matching inside a single line. -/
def listHasSub (p : List Char) : List Char → Bool
  | [] => (listDropPre p []).isSome
  | x :: xs => (listDropPre p (x :: xs)).isSome || listHasSub p xs

/-- `containsStr l pat` : does line `l` contain `pat` as a substring? -/
def containsStr (l pat : String) : Bool := listHasSub pat.data l.data

/-- Does line `l` start with `pat`?  (Models `grep "^pat"`.) -/
def startsWithStr (l pat : String) : Bool := (listDropPre pat.data l.data).isSome

/-- Value of a decimal digit character, `none` for a non-digit. -/
def digitVal (c : Char) : Option Nat :=
  if 48 ≤ c.toNat ∧ c.toNat ≤ 57 then some (c.toNat - 48) else none

/-- Fold a digit string into a number, failing on any non-digit. -/
def digitsToNatAux : Nat → List Char → Option Nat
  | acc, [] => some acc
  | acc, c :: cs =>
    match digitVal c with
    | none => none
    | some d => digitsToNatAux (acc * 10 + d) cs

/-- Parse a non-empty all-digit string as a natural number. -/
def digitsToNat : List Char → Option Nat
  | [] => none
  | c :: cs => digitsToNatAux 0 (c :: cs)

/-- Decimal digits of `n`, most significant first (`fuel`-bounded recursion;
`fuel > n` suffices). -/
def natDigitsAux : Nat → Nat → List Char
  | 0, _ => []
  | fuel + 1, n =>
    if n < 10 then [Char.ofNat (n + 48)]
    else natDigitsAux fuel (n / 10) ++ [Char.ofNat (n % 10 + 48)]

/-- Decimal representation of `n`, as written by `seq` in the shell loop. -/
def natDigits (n : Nat) : List Char := natDigitsAux (n + 1) n

/-! ### AddressAllocator (`get_next_available_ip` in `add-client.sh`)

The script runs `for ip in $(seq $start_ip $max_ip)` and returns the first
offset whose last octet is not in the used set.  `firstFreeAux used s n`
scans the `n` offsets `s, s+1, …, s+n-1` in ascending order. -/

/-- Ascending scan for the first offset not in `used`, starting at `s`,
trying `n` offsets. -/
def firstFreeAux (used : List Nat) : Nat → Nat → Option Nat
  | _, 0 => none
  | s, n + 1 => if s ∈ used then firstFreeAux used (s + 1) n else some s

/-- `get_next_available_ip`: scan octets 2..254 (server reserves .1);
`none` models the `return 1` exhaustion branch. -/
def get_next_available_ip (used : List Nat) : Option Nat :=
  firstFreeAux used 2 253

/-! ### PeerRegistry scan (`listAssignedAddresses`)

`grep "AllowedIPs = " wg0.conf | grep "/32" | sed "s/.*AllowedIPs = //" |
sed "s|/32||"` followed by stripping the subnet base: a line contributes
an offset exactly when it reads `AllowedIPs = <base><octet>/32`. -/

/-- Extract the assigned IPv4 offset from one artifact line, if any. -/
def parseOctet (base l : String) : Option Nat :=
  match listDropPre ("AllowedIPs = " ++ base).data l.data with
  | none => none
  | some rest =>
    match listDropSuf "/32".data rest with
    | none => none
    | some ds => digitsToNat ds

/-- All IPv4 offsets currently assigned in the artifact (the used-octet set
consumed by the allocator). -/
def usedOctets (base : String) (conf : List String) : List Nat :=
  conf.filterMap (parseOctet base)

/-- `get_next_available_ip` together with the stderr lines it emits: the
scan itself prints nothing; the only stderr write in the function is the
exhaustion error after the loop. -/
def get_next_available_ip_io (base : String) (conf : List String) :
    Option Nat × List String :=
  match firstFreeAux (usedOctets base conf) 2 253 with
  | some o => (some o, [])
  | none => (none, ["ERROR: No available IPs in subnet"])

/-! ### PeerRegistry mutation

`add-client.sh` appends (via a heredoc beginning with a blank line)

```
[Peer]
PublicKey = $CLIENT_PUBLIC_KEY
AllowedIPs = $CLIENT_IP/32
```

`remove-client.sh` locates the `PublicKey = $KEY` line with `grep -n`,
searches backwards for the nearest `[Peer]` header, forwards for the next
section header, and splices the file with `head`/`tail`. -/

/-- The `AllowedIPs` line written for a freshly allocated octet. -/
def allowedLine (base : String) (o : Nat) : String :=
  "AllowedIPs = " ++ base ++ String.mk (natDigits o) ++ "/32"

/-- The four lines appended to `wg0.conf` by `add-client.sh` (the heredoc
starts with an empty line). -/
def peerBlock (base key : String) (o : Nat) : List String :=
  ["", "[Peer]", "PublicKey = " ++ key, allowedLine base o]

/-- Index of the first element satisfying `p` (models `grep -n … | head -1`). -/
def findIdxA (p : α → Bool) : List α → Option Nat
  | [] => none
  | x :: xs => if p x then some 0 else (findIdxA p xs).map (· + 1)

/-- Index (0-based) of the first line containing `PublicKey = <key>`,
modelling `grep -n "PublicKey = $CLIENT_PUBLIC_KEY" | cut -d: -f1`. -/
def pubKeyLineIdx (key : String) (conf : List String) : Option Nat :=
  findIdxA (fun l => containsStr l ("PublicKey = " ++ key)) conf

/-- Index of the nearest `[Peer]` header at or before line `p`, modelling
`head -n $PEER_LINE | tac | grep -n "^\[Peer\]$" | head -1`. -/
def peerStartIdx (conf : List String) (p : Nat) : Option Nat :=
  (findIdxA (fun l => l == "[Peer]") (conf.take (p + 1)).reverse).map fun d => p - d

/-- One past the last removed line: the index of the first section header
strictly after line `p`, or the file length if there is none, modelling
`tail -n +$((PEER_LINE + 1)) | grep -n "^\["`. -/
def peerEndIdx (conf : List String) (p : Nat) : Nat :=
  match findIdxA (fun l => startsWithStr l "[") (conf.drop (p + 1)) with
  | some d => p + 1 + d
  | none => conf.length

/-- `remove-client.sh` lines 58–78: excise the `[Peer]` block holding the
given public key; if the key (or its enclosing header) is not found the
artifact is left unchanged. -/
def removeClientConf (key : String) (conf : List String) : List String :=
  match pubKeyLineIdx key conf with
  | none => conf
  | some p =>
    match peerStartIdx conf p with
    | none => conf
    | some s => conf.take s ++ conf.drop (peerEndIdx conf p)

/-- A client directory under `/etc/wireguard/clients/<name>`; the stored
`client_public_key` file may be missing. -/
structure ClientDir where
  name : String
  pubKey : Option String
  deriving DecidableEq, Repr

/-- Gateway state seen by the operator scripts: the set of client
directories and the lines of the registry artifact `wg0.conf`. -/
structure ServerState where
  dirs : List ClientDir
  conf : List String
  deriving DecidableEq, Repr

/-- `add-client.sh`: create the client directory and fresh keys, then
allocate the next free octet; on exhaustion exit 1 *without touching the
artifact*; otherwise append the peer block and exit 0.  Returns the exit
code and the new state. -/
def addClientRun (base name key : String) (st : ServerState) :
    Nat × ServerState :=
  let dirs' := (st.dirs.filter fun d => d.name != name) ++ [⟨name, some key⟩]
  match get_next_available_ip (usedOctets base st.conf) with
  | none => (1, { st with dirs := dirs' })
  | some o => (0, { dirs := dirs', conf := st.conf ++ peerBlock base key o })

/-- `remove-client.sh`: exit 1 if the client directory does not exist;
otherwise excise the peer block when the stored public key is present
(leaving the artifact alone when the key file is missing), delete the
directory and exit 0. -/
def removeClientRun (name : String) (st : ServerState) : Nat × ServerState :=
  match st.dirs.find? fun d => d.name == name with
  | none => (1, st)
  | some d =>
    let conf' :=
      match d.pubKey with
      | none => st.conf
      | some k => removeClientConf k st.conf
    (0, { dirs := st.dirs.filter fun c => c.name != name, conf := conf' })

/-- One operator action against the gateway. -/
inductive Op where
  | add (name key : String)
  | remove (name : String)
  deriving DecidableEq, Repr

/-- Run one operator action (the scripts' exit codes are dropped here). -/
def runOp (base : String) (st : ServerState) : Op → ServerState
  | .add name key => (addClientRun base name key st).2
  | .remove name => (removeClientRun name st).2

/-- Run a sequence of operator actions left to right. -/
def runOps (base : String) (st : ServerState) : List Op → ServerState
  | [] => st
  | op :: ops => runOps base (runOp base st op) ops

/-! ### FleetStatusProbe (`get_region_comprehensive_status`)

The shell helper composes: a CloudFormation stack listing filtered on the
`RegionHop` name prefix, `get_asg_desired_capacity` (which degrades to `0`
whenever the compute stack, its outputs, the ASG name or the capacity query
are missing), `get_vpn_server_ip` (empty/`null` when no address is
available) and `check_vpn_connectivity` (a 3-second `nc -u -z` probe). -/

/-- The four region states printed by the status helpers. -/
inductive RegionStatus where
  | UNDEPLOYED
  | STOPPED
  | RUNNING
  | UNHEALTHY
  deriving DecidableEq, Repr

/-- `get_asg_desired_capacity`: `0` when the compute stack is absent, its
outputs or ASG name are missing, or the capacity query returns nothing;
otherwise the queried desired capacity. -/
def get_asg_desired_capacity (computeStackPresent : Bool)
    (asgName : Option String) (capacityQuery : Option Nat) : Nat :=
  if !computeStackPresent then 0
  else
    match asgName with
    | none => 0
    | some _ =>
      match capacityQuery with
      | none => 0
      | some c => c

/-- Does any listed stack (already filtered to the live CloudFormation
status codes) start with `RegionHop`? -/
def regionhopStacksPresent (stackNames : List String) : Bool :=
  !(stackNames.filter fun s => startsWithStr s "RegionHop").isEmpty

/-- `get_region_comprehensive_status`: UNDEPLOYED when no `RegionHop` stack
exists; STOPPED when desired capacity is 0; UNHEALTHY when no server
address is available; otherwise RUNNING or UNHEALTHY by the reachability
probe.  `vpnIp` is the string printed by `get_vpn_server_ip` (empty or
`"null"` when nothing resolved); `reachable` is the probe's verdict. -/
def get_region_comprehensive_status (stackNames : List String)
    (computeStackPresent : Bool) (asgName : Option String)
    (capacityQuery : Option Nat) (vpnIp : String) (reachable : Bool) :
    RegionStatus :=
  if !regionhopStacksPresent stackNames then .UNDEPLOYED
  else if get_asg_desired_capacity computeStackPresent asgName capacityQuery = 0 then
    .STOPPED
  else if vpnIp = "" || vpnIp = "null" then .UNHEALTHY
  else if reachable then .RUNNING
  else .UNHEALTHY

/-! ### EndpointReconciler (`lib/dns-updater-lambda.ts`)

The handler reacts to an ASG lifecycle event.  On `InProgress`/`Successful`
with an instance id it sleeps a fixed 10 seconds (`setTimeout(…, 10000)`),
then calls `DescribeInstances` exactly once through
`getInstanceAddresses`, and upserts one A and/or AAAA record per resolved
family. -/

/-- Addresses found for an instance, per family. -/
structure InstAddrs where
  ipv4 : Option String
  ipv6 : Option String
  deriving DecidableEq, Repr

/-- `getInstanceAddresses`: keep a family's address only when that family
is required; throw (modelled as `none`) exactly when the code's guard
`(needsIpv4 && !addresses.ipv4) && (needsIpv6 && !addresses.ipv6)` fires.
`found4`/`found6` are the addresses the single `DescribeInstances` call
reports. -/
def getInstanceAddresses (needs4 needs6 : Bool)
    (found4 found6 : Option String) : Option InstAddrs :=
  let a4 := if needs4 then found4 else none
  let a6 := if needs6 then found6 else none
  if (needs4 && a4.isNone) && (needs6 && a6.isNone) then none
  else some ⟨a4, a6⟩

/-- The list of rendezvous upserts prepared by `updateDnsRecords`: one
`A` change if an IPv4 address is present, then one `AAAA` change if an
IPv6 address is present. -/
def dnsChanges (a : InstAddrs) : List (String × String) :=
  (match a.ipv4 with
   | some v => [("A", v)]
   | none => []) ++
  (match a.ipv6 with
   | some v => [("AAAA", v)]
   | none => [])

/-- The instant (seconds after the lifecycle event) at which the handler
queries the instance: it sleeps 10 s once and resolves exactly once. -/
def handlerQueryTime : Nat := 10

/-- The handler's address resolution for one family, as a function of the
instant at which that family's address becomes visible: a single probe at
`handlerQueryTime`, no retry.  `avail t` is the address the cloud API
would report `t` seconds after the event. -/
def resolveOnce (avail : Nat → Option String) : Option String :=
  avail handlerQueryTime

/-- Configured Lambda timeout for the DNS updater
(`timeout: cdk.Duration.minutes(5)` in the compute stack): the bound
within which the spec expects retries to continue. -/
def dnsLambdaTimeoutSeconds : Nat := 300

/-- Availability of an address that becomes (and stays) visible `t0`
seconds after the event. -/
def availFrom (t0 : Nat) (addr : String) (t : Nat) : Option String :=
  if t0 ≤ t then some addr else none

/-! ### Allocator lemmas -/

/-- An offset returned by the ascending scan is not in the used set. -/
theorem firstFreeAux_not_mem {used : List Nat} :
    ∀ {n s o : Nat}, firstFreeAux used s n = some o → o ∉ used := by
  intro n
  induction n with
  | zero => intro s o h; simp [firstFreeAux] at h
  | succ n ih =>
    intro s o h
    by_cases hs : s ∈ used
    · rw [firstFreeAux, if_pos hs] at h
      exact ih h
    · rw [firstFreeAux, if_neg hs] at h
      cases h
      exact hs

/-- An offset returned by the ascending scan lies in the scanned range. -/
theorem firstFreeAux_bounds {used : List Nat} :
    ∀ {n s o : Nat}, firstFreeAux used s n = some o → s ≤ o ∧ o < s + n := by
  intro n
  induction n with
  | zero => intro s o h; simp [firstFreeAux] at h
  | succ n ih =>
    intro s o h
    by_cases hs : s ∈ used
    · rw [firstFreeAux, if_pos hs] at h
      have := ih h
      omega
    · rw [firstFreeAux, if_neg hs] at h
      cases h
      omega

/-- Every offset below the returned one (within the scan) is in use: the
scan is first-fit, lowest offset. -/
theorem firstFreeAux_least {used : List Nat} :
    ∀ {n s o : Nat}, firstFreeAux used s n = some o →
      ∀ k, s ≤ k → k < o → k ∈ used := by
  intro n
  induction n with
  | zero => intro s o h; simp [firstFreeAux] at h
  | succ n ih =>
    intro s o h k hsk hko
    by_cases hs : s ∈ used
    · rw [firstFreeAux, if_pos hs] at h
      rcases Nat.eq_or_lt_of_le hsk with rfl | hlt
      · exact hs
      · exact ih h k hlt hko
    · rw [firstFreeAux, if_neg hs] at h
      cases h
      omega

/-- If some offset in the scanned range is free, the scan succeeds. -/
theorem firstFreeAux_isSome {used : List Nat} :
    ∀ {n s : Nat}, (∃ j, s ≤ j ∧ j < s + n ∧ j ∉ used) →
      (firstFreeAux used s n).isSome = true := by
  intro n
  induction n with
  | zero => rintro s ⟨j, h1, h2, _⟩; omega
  | succ n ih =>
    rintro s ⟨j, h1, h2, h3⟩
    by_cases hs : s ∈ used
    · rw [firstFreeAux, if_pos hs]
      have hj : s + 1 ≤ j := by
        rcases Nat.eq_or_lt_of_le h1 with rfl | h
        · exact absurd hs h3
        · exact h
      exact ih ⟨j, hj, by omega, h3⟩
    · rw [firstFreeAux, if_neg hs]
      rfl

/-- If every offset in the scanned range is used, the scan fails. -/
theorem firstFreeAux_none {used : List Nat} {n s : Nat}
    (h : ∀ j, s ≤ j → j < s + n → j ∈ used) :
    firstFreeAux used s n = none := by
  cases hf : firstFreeAux used s n with
  | none => rfl
  | some o =>
    have hb := firstFreeAux_bounds hf
    exact absurd (h o hb.1 hb.2) (firstFreeAux_not_mem hf)

/-! ### Decimal and parsing lemmas -/

set_option maxRecDepth 40000 in
/-- Round-trip for the octet range the allocator can produce: formatting
then parsing an offset below 1000 yields the offset back. -/
theorem digitsToNat_natDigits : ∀ n < 1000, digitsToNat (natDigits n) = some n := by
  decide

/-- Stripping a prefix that is literally there succeeds. -/
theorem listDropPre_append (p r : List Char) : listDropPre p (p ++ r) = some r := by
  induction p with
  | nil => rfl
  | cons c cs ih => simp [listDropPre, ih]

/-- Stripping a suffix that is literally there succeeds. -/
theorem listDropSuf_append (s xs : List Char) : listDropSuf s (xs ++ s) = some xs := by
  simp [listDropSuf, List.reverse_append, listDropPre_append]

/-- Parsing the `AllowedIPs` line written for offset `o` recovers `o`. -/
theorem parseOctet_allowedLine (base : String) {o : Nat} (h : o < 1000) :
    parseOctet base (allowedLine base o) = some o := by
  have hdata : (allowedLine base o).data =
      ("AllowedIPs = " ++ base).data ++ (natDigits o ++ "/32".data) := by
    simp [allowedLine, String.data_append, String.instAppend, String.append]
  rw [parseOctet, hdata, listDropPre_append]
  simp [listDropSuf_append, digitsToNat_natDigits o h]

/-- A line whose first character is not `A` never parses as an assigned
address (the pattern starts with `AllowedIPs = `). -/
theorem parseOctet_none_of_head {l : String} (c : Char) (cs : List Char)
    (hd : l.data = c :: cs) (hc : c ≠ 'A') (base : String) :
    parseOctet base l = none := by
  have hpre : ("AllowedIPs = " ++ base).data = 'A' :: ("llowedIPs = ".data ++ base.data) := by
    rw [String.data_append]
    rfl
  rw [parseOctet, hpre, hd, listDropPre, if_neg (by simp [hc.symm])]

/-- The empty line never parses as an assigned address. -/
theorem parseOctet_none_empty (base : String) : parseOctet base "" = none := by
  have hpre : ("AllowedIPs = " ++ base).data = 'A' :: ("llowedIPs = ".data ++ base.data) := by
    rw [String.data_append]
    rfl
  rw [parseOctet, hpre]
  rfl

/-- The `[Peer]` header never parses as an assigned address. -/
theorem parseOctet_none_peerHeader (base : String) :
    parseOctet base "[Peer]" = none :=
  parseOctet_none_of_head '[' "Peer]".data rfl (by decide) base

/-- A `PublicKey = <key>` line never parses as an assigned address. -/
theorem parseOctet_none_pubKey (base key : String) :
    parseOctet base ("PublicKey = " ++ key) = none := by
  refine parseOctet_none_of_head 'P' ("ublicKey = ".data ++ key.data) ?_ (by decide) base
  rw [String.data_append]
  rfl

/-- Scanning the artifact after appending a fresh peer block appends
exactly the freshly allocated offset to the used-offset list. -/
theorem usedOctets_append_peerBlock (base key : String) {o : Nat}
    (h : o < 1000) (conf : List String) :
    usedOctets base (conf ++ peerBlock base key o) = usedOctets base conf ++ [o] := by
  rw [usedOctets, List.filterMap_append]
  congr 1
  simp [peerBlock, parseOctet_none_empty, parseOctet_none_peerHeader,
    parseOctet_none_pubKey, parseOctet_allowedLine base h]

/-- The used-offset scan of a registry consisting only of `AllowedIPs`
lines for the offsets `l` returns exactly `l`. -/
theorem usedOctets_map_allowedLine (base : String) (l : List Nat)
    (h : ∀ o ∈ l, o < 1000) :
    usedOctets base (l.map (allowedLine base)) = l := by
  induction l with
  | nil => rfl
  | cons o os ih =>
    rw [List.map_cons, usedOctets, List.filterMap_cons,
      parseOctet_allowedLine base (h o (by simp))]
    rw [usedOctets] at ih
    rw [ih fun x hx => h x (by simp [hx])]

/-! ### Properties of the first-match index search -/

/-- A found index is inside the list. -/
theorem findIdxA_lt_length {α : Type} {p : α → Bool} :
    ∀ {l : List α} {i : Nat}, findIdxA p l = some i → i < l.length := by
  intro l
  induction l with
  | nil => intro i h; simp [findIdxA] at h
  | cons x xs ih =>
    intro i h
    rw [findIdxA] at h
    by_cases hx : p x
    · rw [if_pos hx] at h
      cases h
      simp
    · rw [if_neg hx] at h
      rcases Option.map_eq_some'.mp h with ⟨d, hd, rfl⟩
      have := ih hd
      simp
      omega

/-- The element at a found index satisfies the predicate. -/
theorem findIdxA_found {α : Type} {p : α → Bool} :
    ∀ {l : List α} {i : Nat}, findIdxA p l = some i →
      ∃ x, l[i]? = some x ∧ p x = true := by
  intro l
  induction l with
  | nil => intro i h; simp [findIdxA] at h
  | cons x xs ih =>
    intro i h
    rw [findIdxA] at h
    by_cases hx : p x
    · rw [if_pos hx] at h
      cases h
      exact ⟨x, by simp, hx⟩
    · rw [if_neg hx] at h
      rcases Option.map_eq_some'.mp h with ⟨d, hd, rfl⟩
      simpa using ih hd

/-- Completeness: if position `i` holds a match and no earlier position
does, the search returns exactly `i`. -/
theorem findIdxA_intro {α : Type} {p : α → Bool} :
    ∀ {l : List α} {i : Nat} {x : α}, l[i]? = some x → p x = true →
      (∀ j, j < i → ∀ y, l[j]? = some y → p y = false) →
      findIdxA p l = some i := by
  intro l
  induction l with
  | nil => intro i x h _ _; simp at h
  | cons z zs ih =>
    intro i x hget hpx hearlier
    cases i with
    | zero =>
      simp only [List.getElem?_cons_zero, Option.some.injEq] at hget
      rw [findIdxA, if_pos (hget ▸ hpx)]
    | succ i =>
      have hz : p z = false := hearlier 0 (Nat.succ_pos i) z (by simp)
      rw [findIdxA, if_neg (by simp [hz])]
      have : findIdxA p zs = some i := by
        refine ih (by simpa using hget) hpx ?_
        intro j hj y hy
        exact hearlier (j + 1) (by omega) y (by simpa using hy)
      rw [this]
      rfl

/-- If no element matches, the search fails. -/
theorem findIdxA_none_intro {α : Type} {p : α → Bool} :
    ∀ {l : List α}, (∀ y ∈ l, p y = false) → findIdxA p l = none := by
  intro l
  induction l with
  | nil => intro _; rfl
  | cons z zs ih =>
    intro h
    rw [findIdxA, if_neg (by simp [h z (by simp)]), ih fun y hy => h y (by simp [hy])]
    rfl

/-! ### Excision yields a sublist of the artifact -/

/-- `head -n a` plus `tail -n +(b+1)` of a file is a sublist of the file
whenever `a ≤ b`. -/
theorem take_append_drop_sublist {α : Type} (l : List α) {a b : Nat} (h : a ≤ b) :
    (l.take a ++ l.drop b).Sublist l := by
  have hb : l.drop b = List.drop (b - a) (l.drop a) := by
    rw [List.drop_drop]
    congr 1
    omega
  calc (l.take a ++ l.drop b).Sublist (l.take a ++ l.drop a) := by
        rw [hb]
        exact (List.drop_sublist _ _).append_left _
    _ = l := List.take_append_drop a l

/-- Block removal never invents lines: the rewritten artifact is a
sublist of the original. -/
theorem removeClientConf_sublist (key : String) (conf : List String) :
    (removeClientConf key conf).Sublist conf := by
  cases hp : pubKeyLineIdx key conf with
  | none =>
    rw [removeClientConf, hp]
  | some p =>
    cases hs : peerStartIdx conf p with
    | none =>
      simp only [removeClientConf, hp]
      rw [hs]
    | some s =>
      simp only [removeClientConf, hp]
      rw [hs]
      refine take_append_drop_sublist conf ?_
      have hsp : s ≤ p := by
        rw [peerStartIdx] at hs
        rcases Option.map_eq_some'.mp hs with ⟨d, _, rfl⟩
        omega
      have hplen : p < conf.length := findIdxA_lt_length hp
      have hpe : p < peerEndIdx conf p := by
        cases hf : findIdxA (fun l => startsWithStr l "[") (conf.drop (p + 1)) with
        | some d =>
          simp only [peerEndIdx, hf]
          omega
        | none =>
          simp only [peerEndIdx, hf]
          omega
      omega

/-! ### The no-double-assignment invariant -/

/-- One operator action preserves distinctness of the assigned offsets. -/
theorem usedOctets_runOp_nodup (base : String) (op : Op) (st : ServerState)
    (h : (usedOctets base st.conf).Nodup) :
    (usedOctets base (runOp base st op).conf).Nodup := by
  cases op with
  | add name key =>
    cases halloc : get_next_available_ip (usedOctets base st.conf) with
    | none =>
      simp only [runOp, addClientRun, halloc]
      exact h
    | some o =>
      have hb := firstFreeAux_bounds (halloc : firstFreeAux _ 2 253 = some o)
      have hmem := firstFreeAux_not_mem (halloc : firstFreeAux _ 2 253 = some o)
      simp only [runOp, addClientRun, halloc]
      rw [usedOctets_append_peerBlock base key (by omega) st.conf]
      exact ((List.perm_append_singleton o _).nodup_iff).mpr
        (List.nodup_cons.mpr ⟨hmem, h⟩)
  | remove name =>
    cases hf : st.dirs.find? fun d => d.name == name with
    | none =>
      simp only [runOp, removeClientRun, hf]
      exact h
    | some d =>
      cases hk : d.pubKey with
      | none =>
        simp only [runOp, removeClientRun, hf, hk]
        exact h
      | some k =>
        simp only [runOp, removeClientRun, hf, hk]
        exact ((removeClientConf_sublist k st.conf).filterMap (parseOctet base)).nodup h

/-- A whole sequence of operator actions preserves distinctness. -/
theorem usedOctets_runOps_nodup (base : String) (ops : List Op) :
    ∀ st : ServerState, (usedOctets base st.conf).Nodup →
      (usedOctets base (runOps base st ops).conf).Nodup := by
  induction ops with
  | nil => intro st h; exact h
  | cons op ops ih =>
    intro st h
    exact ih (runOp base st op) (usedOctets_runOp_nodup base op st h)

/-! ### Concrete scenario material -/

/-- IPv4 subnet base used by the deployed gateway (`VPN_SUBNET_BASE`). -/
def base4 : String := "10.8.0."

/-- `wg0.conf` as first written at gateway boot: a single `[Interface]`
block, the server reserving offset 1. -/
def confInit : List String :=
  ["[Interface]", "Address = 10.8.0.1/24", "ListenPort = 51820",
    "PrivateKey = SERVERPRIV"]

/-- Freshly booted gateway: no client directories, pristine artifact. -/
def st0 : ServerState := ⟨[], confInit⟩

/-- Spec §8 scenario: add three peers (offsets 2,3,4), then remove the
peer at offset 3. -/
def scenarioOps : List Op :=
  [.add "alice" "KA", .add "bob" "KB", .add "carol" "KC", .remove "bob"]

/-- A registry in which every allocatable offset 2..254 is assigned. -/
def fullConf : List String :=
  ((List.range 253).map fun i => i + 2).map (allowedLine base4)

/-! ### Claim theorems -/

/-- C1. For every sequence of add/remove operations from a registry with
pairwise-distinct assigned addresses, the registry keeps its assigned
IPv4 offsets pairwise distinct (no two simultaneously active peers hold
the same address in the family), and the allocator never returns an
offset already listed in the artifact. -/
theorem no_double_assignment (base : String) (st : ServerState) (ops : List Op)
    (h : (usedOctets base st.conf).Nodup) :
    (usedOctets base (runOps base st ops).conf).Nodup ∧
    ∀ o, get_next_available_ip (usedOctets base (runOps base st ops).conf) = some o →
      o ∉ usedOctets base (runOps base st ops).conf := by
  refine ⟨usedOctets_runOps_nodup base ops st h, ?_⟩
  intro o halloc
  exact firstFreeAux_not_mem (halloc : firstFreeAux _ 2 253 = some o)

/-- Witness for C1 at a concrete trace (two adds, one remove, one add). -/
theorem no_double_assignment_witness :
    (usedOctets base4 st0.conf).Nodup ∧
    (usedOctets base4
      (runOps base4 st0
        [.add "a" "K1", .add "b" "K2", .remove "a", .add "c" "K3"]).conf).Nodup :=
  ⟨by decide,
    (no_double_assignment base4 st0
      [.add "a" "K1", .add "b" "K2", .remove "a", .add "c" "K3"] (by decide)).1⟩

/-- C2. The allocator is first-fit lowest-offset: whenever some offset in
the scanned range is free, it returns the least free offset of the range;
with offsets {2,3,5} assigned the next allocation in pool [2,254] returns
4; and in the spec scenario (add peers at 2,3,4, remove the one at 3) the
next peer receives offset 3. -/
theorem first_fit_lowest_offset :
    (∀ (used : List Nat) (s n j : Nat), s ≤ j → j < s + n → j ∉ used →
      ∃ o, firstFreeAux used s n = some o ∧ o ∉ used ∧ s ≤ o ∧ o < s + n ∧
        ∀ k, s ≤ k → k < o → k ∈ used) ∧
    get_next_available_ip [2, 3, 5] = some 4 ∧
    get_next_available_ip (usedOctets base4 (runOps base4 st0 scenarioOps).conf) =
      some 3 ∧
    usedOctets base4
      (runOps base4 st0 (scenarioOps ++ [.add "dave" "KD"])).conf = [2, 4, 3] := by
  refine ⟨?_, by decide, by decide, by decide⟩
  intro used s n j hsj hjn hj
  have hsome := @firstFreeAux_isSome used n s ⟨j, hsj, hjn, hj⟩
  rcases Option.isSome_iff_exists.mp hsome with ⟨o, ho⟩
  exact ⟨o, ho, firstFreeAux_not_mem ho, (firstFreeAux_bounds ho).1,
    (firstFreeAux_bounds ho).2, firstFreeAux_least ho⟩

/-- Witness for C2's universally quantified part at a concrete pool. -/
theorem first_fit_lowest_offset_witness :
    (2 ≤ 4 ∧ 4 < 2 + 253 ∧ 4 ∉ [2, 3, 5]) ∧
    ∃ o, firstFreeAux [2, 3, 5] 2 253 = some o ∧ o ∉ [2, 3, 5] ∧ 2 ≤ o ∧
      o < 2 + 253 ∧ ∀ k, 2 ≤ k → k < o → k ∈ [2, 3, 5] :=
  ⟨⟨by decide, by decide, by decide⟩,
    first_fit_lowest_offset.1 [2, 3, 5] 2 253 4 (by decide) (by decide) (by decide)⟩

/-- C6. When every offset of the pool [2,254] is assigned, allocation
fails (it never wraps or reuses), and `add-client.sh` exits 1 leaving the
registry artifact unchanged. -/
theorem allocation_exhausted (base name key : String) (st : ServerState)
    (h : ∀ j, 2 ≤ j → j < 255 → j ∈ usedOctets base st.conf) :
    get_next_available_ip (usedOctets base st.conf) = none ∧
    (addClientRun base name key st).1 = 1 ∧
    (addClientRun base name key st).2.conf = st.conf := by
  have hnone : get_next_available_ip (usedOctets base st.conf) = none :=
    firstFreeAux_none fun j hj1 hj2 => h j hj1 (by omega)
  refine ⟨hnone, ?_, ?_⟩ <;> simp only [addClientRun, hnone]

/-- Witness for C6: a registry with all 253 offsets assigned. -/
theorem allocation_exhausted_witness :
    (∀ j, 2 ≤ j → j < 255 → j ∈ usedOctets base4 fullConf) ∧
    get_next_available_ip (usedOctets base4 fullConf) = none ∧
    (addClientRun base4 "zoe" "KZ" ⟨[], fullConf⟩).1 = 1 ∧
    (addClientRun base4 "zoe" "KZ" ⟨[], fullConf⟩).2.conf = fullConf := by
  have hfull : usedOctets base4 fullConf = (List.range 253).map fun i => i + 2 := by
    refine usedOctets_map_allowedLine base4 _ ?_
    intro o ho
    rcases List.mem_map.mp ho with ⟨i, hi, rfl⟩
    have := List.mem_range.mp hi
    omega
  have h : ∀ j, 2 ≤ j → j < 255 → j ∈ usedOctets base4 fullConf := by
    intro j h1 h2
    rw [hfull]
    exact List.mem_map.mpr ⟨j - 2, List.mem_range.mpr (by omega), by omega⟩
  exact ⟨h, allocation_exhausted base4 "zoe" "KZ" ⟨[], fullConf⟩ h⟩

/-- Modelled from the spec: the four-way status table of §4.4 —
UNDEPLOYED when no deployment exists, STOPPED when desired capacity is 0,
RUNNING when nonzero and an address resolves and the probe succeeds,
UNHEALTHY otherwise.  Used only to compare against the implementation. -/
def regionStatusSpec (deployed : Bool) (desired : Nat)
    (resolvable reachable : Bool) : RegionStatus :=
  if !deployed then .UNDEPLOYED
  else if desired = 0 then .STOPPED
  else if resolvable && reachable then .RUNNING
  else .UNHEALTHY

/-- C3. The region status is a pure four-way function of (deployment
exists, desired capacity, address resolvable, probe result), agreeing
everywhere with the spec's table; "resolvable" is the script's test that
`get_vpn_server_ip` printed something other than empty or `null`. -/
theorem region_status_pure (stackNames : List String)
    (computeStackPresent : Bool) (asgName : Option String)
    (capacityQuery : Option Nat) (vpnIp : String) (reachable : Bool) :
    get_region_comprehensive_status stackNames computeStackPresent asgName
        capacityQuery vpnIp reachable =
      regionStatusSpec (regionhopStacksPresent stackNames)
        (get_asg_desired_capacity computeStackPresent asgName capacityQuery)
        (!(decide (vpnIp = "") || decide (vpnIp = "null"))) reachable := by
  rw [get_region_comprehensive_status, regionStatusSpec]
  cases hdep : regionhopStacksPresent stackNames
  · rfl
  · by_cases hcap :
        get_asg_desired_capacity computeStackPresent asgName capacityQuery = 0
    · simp [hcap]
    · by_cases h1 : vpnIp = "" <;> by_cases h2 : vpnIp = "null" <;>
        cases reachable <;> simp [hcap, h1, h2]

/-- C4 (evidence of the fixed-sleep bug).  The handler's resolution is a
single probe 10 s after the event: for an address that becomes visible
11 s after the event — well within the 300 s Lambda timeout — resolution
fails, while the availability function does report the address within the
timeout. -/
theorem resolver_single_probe_no_retry :
    (∀ (t0 : Nat) (addr : String),
      resolveOnce (availFrom t0 addr) =
        if t0 ≤ handlerQueryTime then some addr else none) ∧
    resolveOnce (availFrom 11 "203.0.113.7") = none ∧
    11 ≤ dnsLambdaTimeoutSeconds ∧
    availFrom 11 "203.0.113.7" dnsLambdaTimeoutSeconds = some "203.0.113.7" := by
  refine ⟨?_, by decide, by decide, ?_⟩
  · intro t0 addr
    rfl
  · rw [availFrom, if_pos (by decide)]

/-- C5 counterexample.  Both families required, IPv4 resolves, IPv6 does
not: the claim says the attempt fails with `AddressResolutionFailed`, but
`getInstanceAddresses` succeeds and the A record is published. -/
theorem one_family_missing_no_failure :
    getInstanceAddresses true true (some "203.0.113.7") none =
      some ⟨some "203.0.113.7", none⟩ ∧
    dnsChanges ⟨some "203.0.113.7", none⟩ = [("A", "203.0.113.7")] :=
  ⟨rfl, rfl⟩

/-- C5 (amended).  The attempt fails exactly when both families are
required and neither resolves; on success the kept addresses are the
required families' results, and every resolved family is published. -/
theorem resolution_failure_iff (needs4 needs6 : Bool) (f4 f6 : Option String) :
    (getInstanceAddresses needs4 needs6 f4 f6 = none ↔
      needs4 = true ∧ needs6 = true ∧ f4 = none ∧ f6 = none) ∧
    (∀ a, getInstanceAddresses needs4 needs6 f4 f6 = some a →
      a.ipv4 = (if needs4 then f4 else none) ∧
      a.ipv6 = (if needs6 then f6 else none)) ∧
    (∀ (a : InstAddrs) (v : String),
      (a.ipv4 = some v → ("A", v) ∈ dnsChanges a) ∧
      (a.ipv6 = some v → ("AAAA", v) ∈ dnsChanges a)) := by
  refine ⟨?_, ?_, ?_⟩
  · cases needs4 <;> cases needs6 <;> cases f4 <;> cases f6 <;>
      simp [getInstanceAddresses]
  · intro a ha
    rw [getInstanceAddresses] at ha
    by_cases hc : ((needs4 && (if needs4 then f4 else none).isNone) &&
        (needs6 && (if needs6 then f6 else none).isNone)) = true
    · rw [if_pos hc] at ha
      cases ha
    · rw [if_neg hc] at ha
      cases ha
      exact ⟨rfl, rfl⟩
  · intro a v
    constructor
    · intro hv
      simp [dnsChanges, hv]
    · intro hv
      cases h4 : a.ipv4 <;> simp [dnsChanges, hv, h4]

/-- Witness for C5's amended statement at concrete inputs: a dual-family
deployment where neither family resolves fails, and a resolved IPv4
address is published. -/
theorem resolution_failure_iff_witness :
    getInstanceAddresses true true none none = none ∧
    (("A", "198.51.100.2") ∈
      dnsChanges ⟨some "198.51.100.2", none⟩) :=
  ⟨(resolution_failure_iff true true none none).1.mpr ⟨rfl, rfl, rfl, rfl⟩,
    ((resolution_failure_iff true true none none).2.2
      ⟨some "198.51.100.2", none⟩ "198.51.100.2").1 rfl⟩

/-- No client directory survives filtering out its own name, so a second
lookup of a removed client fails. -/
theorem find_filtered_name_none (name : String) (dirs : List ClientDir) :
    (dirs.filter fun c => c.name != name).find? (fun d => d.name == name) =
      none := by
  apply List.find?_eq_none.mpr
  intro x hx
  have hne := (List.mem_filter.mp hx).2
  simp only [bne_iff_ne, ne_eq] at hne
  simp [hne]

/-- C8. Removing the same peer twice: the second removal exits 1 and
returns the state unchanged from after the first removal; removing a
never-added peer exits 1 and leaves the state untouched. -/
theorem remove_idempotent_safe :
    (∀ (st : ServerState) (name : String),
      removeClientRun name (removeClientRun name st).2 =
        (1, (removeClientRun name st).2)) ∧
    (∀ (st : ServerState) (name : String),
      (st.dirs.find? fun d => d.name == name) = none →
      removeClientRun name st = (1, st)) := by
  constructor
  · intro st name
    cases hf : st.dirs.find? fun d => d.name == name with
    | none => simp [removeClientRun, hf]
    | some d =>
      simp only [removeClientRun, hf]
      rw [find_filtered_name_none name st.dirs]
  · intro st name h
    simp [removeClientRun, h]

/-- Witness for C8 on a concrete state: `bob` exists, `eve` never did. -/
theorem remove_idempotent_safe_witness :
    (removeClientRun "bob"
        (removeClientRun "bob" ⟨[⟨"bob", some "KB"⟩], confInit⟩).2 =
      (1, (removeClientRun "bob" ⟨[⟨"bob", some "KB"⟩], confInit⟩).2)) ∧
    ((⟨[⟨"bob", some "KB"⟩], confInit⟩ : ServerState).dirs.find?
        (fun d => d.name == "eve") = none) ∧
    removeClientRun "eve" ⟨[⟨"bob", some "KB"⟩], confInit⟩ =
      (1, ⟨[⟨"bob", some "KB"⟩], confInit⟩) :=
  ⟨remove_idempotent_safe.1 ⟨[⟨"bob", some "KB"⟩], confInit⟩ "bob",
    by decide,
    remove_idempotent_safe.2 ⟨[⟨"bob", some "KB"⟩], confInit⟩ "eve" (by decide)⟩

/-- C10. When the client directory exists but its stored public key is
missing, or the key matches no line of the artifact, `remove-client.sh`
still deletes the directory and exits 0 with the artifact unchanged (the
service restart it performs is an unmodelled side effect). -/
theorem remove_unknown_key_succeeds (name : String) (st : ServerState)
    (d : ClientDir) (hfind : (st.dirs.find? fun c => c.name == name) = some d)
    (hkey : d.pubKey = none ∨
      ∃ k, d.pubKey = some k ∧ pubKeyLineIdx k st.conf = none) :
    removeClientRun name st =
      (0, ⟨st.dirs.filter fun c => c.name != name, st.conf⟩) := by
  rcases hkey with hk | ⟨k, hk, hnone⟩
  · simp [removeClientRun, hfind, hk]
  · simp [removeClientRun, hfind, hk, removeClientConf, hnone]

/-- Witness for C10: `bob`'s directory exists with no stored key file. -/
theorem remove_unknown_key_succeeds_witness :
    ((⟨[⟨"bob", none⟩], confInit⟩ : ServerState).dirs.find?
        (fun c => c.name == "bob") = some ⟨"bob", none⟩) ∧
    removeClientRun "bob" ⟨[⟨"bob", none⟩], confInit⟩ =
      (0, ⟨([⟨"bob", none⟩] : List ClientDir).filter fun c => c.name != "bob",
        confInit⟩) :=
  ⟨by decide,
    remove_unknown_key_succeeds "bob" ⟨[⟨"bob", none⟩], confInit⟩
      ⟨"bob", none⟩ (by decide) (Or.inl rfl)⟩

/-- A registry whose last peer block is truncated (no `AllowedIPs` line). -/
def confTruncated : List String :=
  ["[Interface]", "Address = 10.8.0.1/24", "", "[Peer]", "PublicKey = KA",
    "AllowedIPs = 10.8.0.2/32", "", "[Peer]", "PublicKey = KBAD"]

/-- C9 counterexample.  Scanning a registry with a truncated peer block
emits no warning whatsoever (the claim says the block is skipped *with a
warning*); the well-formed block's address is still returned. -/
theorem malformed_scan_no_warning :
    usedOctets base4 confTruncated = [2] ∧
    (get_next_available_ip_io base4 confTruncated).2 = [] := by
  decide

/-- C9 (amended).  A malformed run of lines (one parsing to no address)
is skipped silently: the scan neither crashes nor aborts, contributes no
assigned address for the malformed block, and both the scan result and
the allocation outcome are as if the malformed lines were absent. -/
theorem malformed_blocks_skipped (base : String) (c1 bad c2 : List String)
    (h : ∀ l ∈ bad, parseOctet base l = none) :
    usedOctets base (c1 ++ bad ++ c2) = usedOctets base (c1 ++ c2) ∧
    get_next_available_ip_io base (c1 ++ bad ++ c2) =
      get_next_available_ip_io base (c1 ++ c2) := by
  have hbad : bad.filterMap (parseOctet base) = [] := by
    rw [List.filterMap_eq_nil_iff]
    exact h
  have h1 : usedOctets base (c1 ++ bad ++ c2) = usedOctets base (c1 ++ c2) := by
    simp [usedOctets, List.filterMap_append, hbad]
  exact ⟨h1, by simp only [get_next_available_ip_io, h1]⟩

/-- Witness for C9's amended statement: the truncated block of
`confTruncated` does not disturb the other peers' scan or allocation. -/
theorem malformed_blocks_skipped_witness :
    (∀ l ∈ ["", "[Peer]", "PublicKey = KBAD"], parseOctet base4 l = none) ∧
    usedOctets base4
        (["[Interface]", "AllowedIPs = 10.8.0.2/32"] ++
          ["", "[Peer]", "PublicKey = KBAD"] ++ ["AllowedIPs = 10.8.0.4/32"]) =
      usedOctets base4
        (["[Interface]", "AllowedIPs = 10.8.0.2/32"] ++
          ["AllowedIPs = 10.8.0.4/32"]) :=
  ⟨by decide,
    (malformed_blocks_skipped base4 ["[Interface]", "AllowedIPs = 10.8.0.2/32"]
      ["", "[Peer]", "PublicKey = KBAD"] ["AllowedIPs = 10.8.0.4/32"]
      (by decide)).1⟩

/-- The backward search (`tac | grep -n | head -1`) finds the *last*
matching index: if position `s` matches and nothing after it does, the
first match in the reversed list is at distance `length - 1 - s`. -/
theorem findIdxA_reverse_last {α : Type} (pr : α → Bool) (l : List α) (s : Nat)
    (hs : s < l.length) (x : α) (hx : l[s]? = some x) (hpx : pr x = true)
    (hafter : ∀ j, s < j → j < l.length → ∀ y, l[j]? = some y → pr y = false) :
    findIdxA pr l.reverse = some (l.length - 1 - s) := by
  refine findIdxA_intro ?_ hpx ?_
  · rw [List.getElem?_reverse (by omega)]
    have harith : l.length - 1 - (l.length - 1 - s) = s := by omega
    rw [harith, hx]
  · intro j hj y hy
    have hjlen : j < l.length := by omega
    rw [List.getElem?_reverse (by omega)] at hy
    exact hafter (l.length - 1 - j) (by omega) (by omega) y hy

/-- C7. If line `p` is the first line containing `PublicKey = <key>`,
line `s` is the nearest `[Peer]` start marker at or before `p`, and `e`
is the next block start marker strictly after `p` (or end of file), then
block removal excises exactly lines `s..e-1`: the result is the lines
before `s` followed by the lines from `e` on, all preserved in order. -/
theorem remove_block_excision (key : String) (conf : List String) (p s e : Nat)
    (hplen : p < conf.length)
    (hpk : containsStr (conf.getD p "") ("PublicKey = " ++ key) = true)
    (hfirst : ∀ j < p, containsStr (conf.getD j "") ("PublicKey = " ++ key) = false)
    (hsp : s ≤ p)
    (hs : conf.getD s "" = "[Peer]")
    (hnear : ∀ j ≤ p, s < j → conf.getD j "" ≠ "[Peer]")
    (hpe : p < e) (hel : e ≤ conf.length)
    (hmid : ∀ j < e, p < j → startsWithStr (conf.getD j "") "[" = false)
    (hend : e = conf.length ∨ startsWithStr (conf.getD e "") "[" = true) :
    removeClientConf key conf = conf.take s ++ conf.drop e := by
  have hget : ∀ j, j < conf.length → conf[j]? = some (conf.getD j "") := by
    intro j hj
    rw [List.getElem?_eq_getElem hj, List.getD_eq_getElem conf "" hj]
  have hpidx : pubKeyLineIdx key conf = some p := by
    refine findIdxA_intro (hget p hplen) hpk ?_
    intro j hj y hy
    rw [hget j (by omega)] at hy
    cases hy
    exact hfirst j hj
  have htlen : (conf.take (p + 1)).length = p + 1 := by
    rw [List.length_take]
    omega
  have hsidx : peerStartIdx conf p = some s := by
    have hidx : findIdxA (fun l => l == "[Peer]") (conf.take (p + 1)).reverse =
        some ((conf.take (p + 1)).length - 1 - s) := by
      refine findIdxA_reverse_last _ _ s (by omega) "[Peer]" ?_ (by simp) ?_
      · rw [List.getElem?_take_of_lt (by omega), hget s (by omega), hs]
      · intro j hjs hjlen y hy
        rw [htlen] at hjlen
        rw [List.getElem?_take_of_lt (by omega), hget j (by omega)] at hy
        cases hy
        have := hnear j (by omega) hjs
        exact beq_eq_false_iff_ne.mpr this
    rw [peerStartIdx, hidx, htlen]
    simp only [Option.map_some']
    congr 1
    omega
  have heidx : peerEndIdx conf p = e := by
    rcases hend with rfl | hhd
    · have hfind : findIdxA (fun l => startsWithStr l "[")
          (conf.drop (p + 1)) = none := by
        refine findIdxA_none_intro ?_
        intro y hy
        rcases List.mem_iff_getElem?.mp hy with ⟨i, hi⟩
        rw [List.getElem?_drop] at hi
        rcases List.getElem?_eq_some_iff.mp hi with ⟨hlt, rfl⟩
        rw [← List.getD_eq_getElem conf "" hlt]
        exact hmid (p + 1 + i) (by omega) (by omega)
      simp only [peerEndIdx, hfind]
    · have helen : e < conf.length := by
        by_contra hge
        rw [List.getD_eq_default conf "" (by omega)] at hhd
        exact absurd hhd (by decide)
      have hfind : findIdxA (fun l => startsWithStr l "[")
          (conf.drop (p + 1)) = some (e - (p + 1)) := by
        refine findIdxA_intro ?_ hhd ?_
        · rw [List.getElem?_drop]
          have harith : p + 1 + (e - (p + 1)) = e := by omega
          rw [harith, hget e helen]
        · intro j hj y hy
          rw [List.getElem?_drop, hget (p + 1 + j) (by omega)] at hy
          cases hy
          exact hmid (p + 1 + j) (by omega) (by omega)
      simp only [peerEndIdx, hfind]
      omega
  simp only [removeClientConf, hpidx, hsidx, heidx]

/-- Two well-formed peer blocks for `KA` and `KB` after the interface
block. -/
def confTwoPeers : List String :=
  ["[Interface]", "Address = 10.8.0.1/24", "", "[Peer]", "PublicKey = KA",
    "AllowedIPs = 10.8.0.2/32", "", "[Peer]", "PublicKey = KB",
    "AllowedIPs = 10.8.0.3/32"]

/-- Witness for C7: removing `KA` from `confTwoPeers` excises exactly
lines 3..6 (its `[Peer]` marker up to the line before `KB`'s marker). -/
theorem remove_block_excision_witness :
    (confTwoPeers.getD 4 "" = "PublicKey = KA" ∧ confTwoPeers.getD 3 "" = "[Peer]" ∧
      confTwoPeers.getD 7 "" = "[Peer]") ∧
    removeClientConf "KA" confTwoPeers =
      confTwoPeers.take 3 ++ confTwoPeers.drop 7 :=
  ⟨⟨by decide, by decide, by decide⟩,
    remove_block_excision "KA" confTwoPeers 4 3 7 (by decide) (by decide)
      (by decide) (by decide) (by decide) (by decide) (by decide) (by decide)
      (by decide) (Or.inr (by decide))⟩

end RegionHop
